import Mathlib

/-!
Shallow embedding of the Game of Life simulation engine found in
src/app/app.component.ts: the toroidal neighbour indexing (getNeighbours),
the Field state (status array, aliveCells, deadCellsWithAliveNeighbours,
neighbour map), the reducer actions (initAction, setStatusAction, tickAction)
and the event fold performed by the scan operator.

JavaScript particulars are modelled explicitly:
  - array reads out of range yield undefined, which is falsy: jsGet;
  - array writes past the end extend the array with holes (read back as
    falsy): jsSet;
  - a lookup miss on the neighbour Map returns undefined, and the subsequent
    method call on it throws, which errors the reducer stream: actions that
    can throw return Option Field, none meaning the thrown exception;
  - cell indices are JavaScript numbers and arithmetic on them is exact in
    the ranges involved, so they are modelled as integers.
-/

namespace GameOfLife

/-- JavaScript array read a[i]: out-of-range or negative reads give
undefined, which is falsy in the boolean contexts the component uses. -/
def jsGet (s : List Bool) (i : ℤ) : Bool :=
  if 0 ≤ i then s.getD i.toNat false else false

/-- JavaScript array write a[i] = v for i ≥ 0: in-range writes update the
element, writes past the end extend the array with holes (falsy reads). -/
def jsSet (s : List Bool) (i : ℤ) (v : Bool) : List Bool :=
  if 0 ≤ i then
    if i.toNat < s.length then s.set i.toNat v
    else s ++ List.replicate (i.toNat - s.length) false ++ [v]
  else s

/-- The Field interface of the component: per-cell status, the two derived
sparse sets, and the precomputed neighbour Map (a partial map on integers). -/
structure Field where
  status : List Bool
  aliveCells : Finset ℤ
  deadCellsWithAliveNeighbours : Finset ℤ
  neighbours : ℤ → Option (List ℤ)

/-- The seed of the scan fold: empty status, empty sets, empty neighbour Map. -/
def emptyField : Field where
  status := []
  aliveCells := ∅
  deadCellsWithAliveNeighbours := ∅
  neighbours := fun _ => none

/-- getNeighbours(index, height, width): the four wrap offsets and the eight
neighbour indices in the component's order (top-left, top, top-right, left,
right, bottom-left, bottom, bottom-right). -/
def getNeighbours (index height width : ℕ) : List ℤ :=
  let dimension : ℤ := (height : ℤ) * width
  let topNeighbourOffset : ℤ := if index < width then dimension - width else -(width : ℤ)
  let bottomNeighbourOffset : ℤ :=
    if ((height : ℤ) - 1) * width ≤ (index : ℤ) then -dimension + width else (width : ℤ)
  let leftNeighbourOffset : ℤ := if index % width = 0 then (width : ℤ) - 1 else -1
  let rightNeighbourOffset : ℤ :=
    if index % width = width - 1 then -(width : ℤ) + 1 else 1
  [(index : ℤ) + topNeighbourOffset + leftNeighbourOffset,
   (index : ℤ) + topNeighbourOffset,
   (index : ℤ) + topNeighbourOffset + rightNeighbourOffset,
   (index : ℤ) + leftNeighbourOffset,
   (index : ℤ) + rightNeighbourOffset,
   (index : ℤ) + bottomNeighbourOffset + leftNeighbourOffset,
   (index : ℤ) + bottomNeighbourOffset,
   (index : ℤ) + bottomNeighbourOffset + rightNeighbourOffset]

/-- The neighbour Map built by initField$: every index of the status array is
mapped to its getNeighbours list; all other keys miss (undefined). -/
def mkNeighbours (height width : ℕ) : ℤ → Option (List ℤ) :=
  fun i =>
    if 0 ≤ i ∧ i < ((height * width : ℕ) : ℤ) then some (getNeighbours i.toNat height width)
    else none

/-- The neighbour list of a cell, defaulting to empty on a Map miss; used
only to state properties, never to hide a crash of the code. -/
def nbrsList (f : Field) (i : ℤ) : List ℤ :=
  (f.neighbours i).getD []

/-- initAction: spread of the initField$ payload over the previous field.
Only status and neighbours are replaced; aliveCells and
deadCellsWithAliveNeighbours are whatever the previous field held. -/
def initAction (height width : ℕ) (f : Field) : Field where
  status := List.replicate (height * width) false
  aliveCells := f.aliveCells
  deadCellsWithAliveNeighbours := f.deadCellsWithAliveNeighbours
  neighbours := mkNeighbours height width

/-- setStatusAction: writes the cell, then repairs aliveCells and the
frontier set. The non-null assertion on neighbours.get(index) means a Map
miss makes the subsequent method call throw: modelled as none. In the
dead-cell branch the repair loop also dereferences neighbours.get(n)! for
every neighbour n, which likewise throws on a miss. -/
def setStatusAction (index : ℤ) (status : Bool) (f : Field) : Option Field :=
  let status' := jsSet f.status index status
  match f.neighbours index with
  | none => none
  | some nbs =>
    if status then
      let aliveCells := insert index f.aliveCells
      let dead := (f.deadCellsWithAliveNeighbours.erase index) ∪
        ((nbs.filter (fun n => decide (n ∉ aliveCells))).toFinset)
      some { status := status', aliveCells := aliveCells,
             deadCellsWithAliveNeighbours := dead, neighbours := f.neighbours }
    else
      let aliveCells := f.aliveCells.erase index
      let dead₀ :=
        if nbs.any (fun n => decide (n ∈ aliveCells)) then
          insert index f.deadCellsWithAliveNeighbours
        else f.deadCellsWithAliveNeighbours
      if ∀ n ∈ nbs, (f.neighbours n).isSome = true then
        let dead := nbs.foldl
          (fun acc n =>
            if ((f.neighbours n).getD []).any (fun m => decide (m ∈ aliveCells)) then acc
            else acc.erase n)
          dead₀
        some { status := status', aliveCells := aliveCells,
               deadCellsWithAliveNeighbours := dead, neighbours := f.neighbours }
      else none

/-- decideStatus inside tick: count alive neighbours through the status
array and apply the B3/S23 rule to the cell's current status. -/
def decideStatus (f : Field) (status : Bool) (index : ℤ) : Bool :=
  let aliveNeighbours := ((f.neighbours index).getD []).countP (fun n => jsGet f.status n)
  if status then decide (2 ≤ aliveNeighbours ∧ aliveNeighbours ≤ 3)
  else decide (aliveNeighbours = 3)

/-- tick: candidates are aliveCells plus the frontier; each candidate is
mapped to itself when decideStatus keeps it alive and to null otherwise, and
the filter keeps only truthy values, which also discards index 0. The new
frontier is every neighbour of a new alive cell that is not itself alive,
and the new status array marks exactly the new aliveCells. Each candidate
dereferences neighbours.get(index)!: a miss throws, modelled as none. -/
def tick (f : Field) : Option (List Bool × Finset ℤ × Finset ℤ) :=
  let candidates := f.aliveCells ∪ f.deadCellsWithAliveNeighbours
  if ∀ i ∈ candidates, (f.neighbours i).isSome = true then
    let aliveCells := candidates.filter
      (fun i => decideStatus f (jsGet f.status i) i = true ∧ ¬(i = 0))
    let deadCellsWithAliveNeighbours :=
      (aliveCells.biUnion (fun i => ((f.neighbours i).getD []).toFinset)).filter
        (fun n => n ∉ aliveCells)
    some (f.status.mapIdx (fun index _ => decide ((index : ℤ) ∈ aliveCells)),
          aliveCells, deadCellsWithAliveNeighbours)
  else none

/-- tickAction: spread of the tick result over the previous field; the
neighbour map is carried over unchanged. -/
def tickAction (f : Field) : Option Field :=
  (tick f).map (fun r =>
    { status := r.1, aliveCells := r.2.1,
      deadCellsWithAliveNeighbours := r.2.2, neighbours := f.neighbours })

/-- The three event kinds merged into the scan fold. -/
inductive GolEvent where
  | init (height width : ℕ)
  | setStatus (index : ℤ) (status : Bool)
  | tick

/-- One step of the scan reducer. A thrown exception (none) errors the
stream. -/
def reduce (f : Field) (e : GolEvent) : Option Field :=
  match e with
  | .init height width => some (initAction height width f)
  | .setStatus index status => setStatusAction index status f
  | .tick => tickAction f

/-- The scan fold over a finite event sequence, started from the seed field;
none when some event threw. -/
def runEvents (es : List GolEvent) : Option Field :=
  es.foldl (fun acc e => acc.bind (fun f => reduce f e)) (some emptyField)

/-- Modelled from the spec (section 4.2 step 3 and section 8, equivalence of
incremental and naive stepping): the naive per-cell B3/S23 evaluation over
every cell of the grid, using the same neighbour map and status array. This
is the reference side of the refinement claim, not code of the component. -/
def naiveStepStatus (f : Field) : List Bool :=
  f.status.mapIdx (fun index status =>
    let aliveNeighbours :=
      ((f.neighbours (index : ℤ)).getD []).countP (fun n => jsGet f.status n)
    if status then decide (2 ≤ aliveNeighbours ∧ aliveNeighbours ≤ 3)
    else decide (aliveNeighbours = 3))

/-- A valid 5 by 5 field whose alive cells are 1, 5 and 6, the three
neighbours of cell 0: its status array, aliveCells and frontier satisfy the
documented invariants, and cell 0 is dead with exactly three alive
neighbours, so the B3/S23 rule births it. -/
def fieldB : Field where
  status := [false, true, false, false, false, true, true, false, false, false,
             false, false, false, false, false, false, false, false, false, false,
             false, false, false, false, false]
  aliveCells := {1, 5, 6}
  deadCellsWithAliveNeighbours := {0, 2, 4, 7, 9, 10, 11, 12, 14, 20, 21, 22}
  neighbours := mkNeighbours 5 5

/-- Resize scenario: a 10 by 10 grid, cell 12 made alive, then a resize to
11 by 10. -/
def evsResize : List GolEvent := [.init 10 10, .setStatus 12 true, .init 11 10]

/-- The row above r on a torus of height h (vertical wrap). -/
def rowUp (r h : ℤ) : ℤ := if r = 0 then h - 1 else r - 1

/-- The row below r on a torus of height h (vertical wrap). -/
def rowDown (r h : ℤ) : ℤ := if r = h - 1 then 0 else r + 1

/-- The column left of c on a torus of width w (horizontal wrap). -/
def colLeft (c w : ℤ) : ℤ := if c = 0 then w - 1 else c - 1

/-- The column right of c on a torus of width w (horizontal wrap). -/
def colRight (c w : ℤ) : ℤ := if c = w - 1 then 0 else c + 1

/-- The inner-field invariants documented for Field: the neighbour Map is
total exactly on the grid, its lists stay inside the grid and are symmetric,
aliveCells mirrors status, and the frontier holds exactly the dead cells
with an alive neighbour. -/
structure ValidField (f : Field) : Prop where
  dom : ∀ i : ℤ, (f.neighbours i).isSome = true ↔ (0 ≤ i ∧ i < (f.status.length : ℤ))
  closed : ∀ i : ℤ, ∀ n ∈ nbrsList f i, 0 ≤ n ∧ n < (f.status.length : ℤ)
  nbrSymm : ∀ i : ℤ, ∀ n ∈ nbrsList f i, i ∈ nbrsList f n
  alive : ∀ i : ℤ, i ∈ f.aliveCells ↔ jsGet f.status i = true
  frontier : ∀ i : ℤ, i ∈ f.deadCellsWithAliveNeighbours ↔
    (jsGet f.status i = false ∧ ∃ n ∈ nbrsList f i, jsGet f.status n = true)

/-- Claim C1. The incremental tick does not match the naive B3/S23
evaluation: on the valid field fieldB, cell 0 is dead with three alive
neighbours and sits in the frontier, so the naive rule births it, yet the
field returned by the tick action still has cell 0 dead, because the
candidate collection discards index 0 (a falsy value) together with the
nulls. -/
theorem tick_differs_from_naive_at_cell_zero :
    (tickAction fieldB).map (fun f => jsGet f.status 0) = some false ∧
    jsGet (naiveStepStatus fieldB) 0 = true ∧
    (0 : ℤ) ∈ fieldB.deadCellsWithAliveNeighbours ∧
    (tickAction fieldB).map Field.aliveCells = some {1, 5, 6} := by decide

/-- Claim C2. The alive-cells invariant is broken by a resize: after
Init(10,10), SetCell(12, true), Init(11,10), cell 12 is still a member of
aliveCells although its status is false. -/
theorem invariant_broken_after_resize :
    (runEvents evsResize).map Field.aliveCells = some {12} ∧
    (runEvents evsResize).map (fun f => jsGet f.status 12) = some false := by decide

/-- Claim C3. A resize does not reset aliveCells and the frontier: after
Init(10,10), SetCell(12, true), Init(11,10) the status array is reset to
all-false at the new dimensions, but aliveCells is still {12} and the
frontier still holds the old neighbours of 12. -/
theorem resize_keeps_stale_sets :
    (runEvents evsResize).map Field.aliveCells = some {12} ∧
    (runEvents evsResize).map Field.deadCellsWithAliveNeighbours =
      some {1, 2, 3, 11, 13, 21, 22, 23} ∧
    (runEvents evsResize).map Field.status = some (List.replicate 110 false) := by decide

/-- Claim C4, counterexample: a SetCell processed on the uninitialized empty
Field is not a safe no-op: the neighbour Map lookup misses and the handler
throws (none), erroring the reducer stream. -/
theorem setStatus_on_empty_field_throws :
    reduce emptyField (.setStatus 0 true) = none := rfl

/-- Claim C4, amended: on the uninitialized empty Field a Tick is a safe
no-op, returning the field unchanged, while any SetCell throws on the empty
neighbour Map. -/
theorem empty_field_tick_noop_setStatus_throws :
    tickAction emptyField = some emptyField ∧
    ∀ (i : ℤ) (s : Bool), setStatusAction i s emptyField = none := by
  constructor
  · rfl
  · intro i s; rfl

/-- The status array written by tick reads false at position 0 whenever 0 is
not in the new alive set. -/
theorem jsGet_mapIdx_zero (l : List Bool) (A : Finset ℤ) (h : (0 : ℤ) ∉ A) :
    jsGet (l.mapIdx (fun index _ => decide ((index : ℤ) ∈ A))) 0 = false := by
  cases l with
  | nil => simp [jsGet, List.mapIdx_eq_enum_map]
  | cons b t =>
    simp [jsGet, List.mapIdx_eq_enum_map, List.enum_cons, h]

/-- Claim C5. The field returned by the tick action always has cell 0 dead:
0 is never in the new aliveCells and the new status reads false at 0, since
the candidate collection filter keeps only truthy mapped values and the
index 0 is falsy. -/
theorem tick_never_revives_cell_zero (f f' : Field) (h : tickAction f = some f') :
    0 ∉ f'.aliveCells ∧ jsGet f'.status 0 = false := by
  unfold tickAction tick at h
  by_cases hall : ∀ i ∈ f.aliveCells ∪ f.deadCellsWithAliveNeighbours,
      (f.neighbours i).isSome = true
  · rw [if_pos hall, Option.map_some'] at h
    injection h with h
    subst h
    have h0 : (0 : ℤ) ∉ (f.aliveCells ∪ f.deadCellsWithAliveNeighbours).filter
        (fun i => decideStatus f (jsGet f.status i) i = true ∧ ¬(i = 0)) :=
      fun hmem => (Finset.mem_filter.mp hmem).2.2 rfl
    exact ⟨h0, jsGet_mapIdx_zero f.status _ h0⟩
  · rw [if_neg hall] at h
    exact absurd h (by simp)

/-- Claim C5, witness: on the concrete valid field fieldB the hypotheses
hold and the conclusion is checked. -/
theorem tick_never_revives_cell_zero_witness :
    0 ∉ ((tickAction fieldB).get (by decide)).aliveCells ∧
    jsGet ((tickAction fieldB).get (by decide)).status 0 = false :=
  tick_never_revives_cell_zero fieldB _ (Option.some_get _).symm

/-- Claim C9. The glider scenario: after one Tick the alive set is the
standard one-generation-advanced glider {(2,1),(2,3),(3,2),(3,3),(4,2)},
and after four Ticks it is the original glider translated by (1,1) with
toroidal wrap. -/
theorem glider_one_and_four_ticks :
    (runEvents [.init 5 5, .setStatus 7 true, .setStatus 13 true, .setStatus 16 true,
      .setStatus 17 true, .setStatus 18 true, .tick]).map Field.aliveCells =
      some {18, 17, 13, 11, 22} ∧
    ({18, 17, 13, 11, 22} : Finset ℤ) = {11, 13, 17, 18, 22} ∧
    (runEvents [.init 5 5, .setStatus 7 true, .setStatus 13 true, .setStatus 16 true,
      .setStatus 17 true, .setStatus 18 true, .tick, .tick, .tick, .tick]).map
        Field.aliveCells =
      some {22, 23, 19, 13, 24} ∧
    ({22, 23, 19, 13, 24} : Finset ℤ) = {13, 19, 22, 23, 24} ∧
    (({7, 13, 16, 17, 18} : Finset ℤ).image
        (fun i => (i / 5 + 1) % 5 * 5 + (i % 5 + 1) % 5)) =
      {13, 19, 22, 23, 24} :=
  ⟨by decide, by decide, by decide, by decide, by decide⟩

/-- Claim C10. A Tick or a SetCell that returns a field keeps the neighbour
Map of the input field unchanged; only initAction replaces it. -/
theorem actions_preserve_neighbours (f : Field) :
    (∀ f', tickAction f = some f' → f'.neighbours = f.neighbours) ∧
    (∀ (i : ℤ) (s : Bool) (f' : Field),
      setStatusAction i s f = some f' → f'.neighbours = f.neighbours) := by
  constructor
  · intro f' h
    unfold tickAction at h
    cases ht : tick f with
    | none => rw [ht] at h; exact Option.noConfusion h
    | some r =>
      rw [ht, Option.map_some'] at h
      injection h with h
      subst h
      rfl
  · intro i s f' h
    unfold setStatusAction at h
    split at h
    · exact Option.noConfusion h
    · split at h
      · injection h with h
        subst h
        rfl
      · split at h
        · injection h with h
          subst h
          rfl
        · exact Option.noConfusion h

/-- Claim C10, witness: on the freshly initialized 5 by 5 field, a SetCell
and a Tick both succeed and return the same neighbour Map. -/
theorem actions_preserve_neighbours_witness :
    ((setStatusAction 7 true (initAction 5 5 emptyField)).get (by decide)).neighbours =
      (initAction 5 5 emptyField).neighbours ∧
    ((tickAction (initAction 5 5 emptyField)).get (by decide)).neighbours =
      (initAction 5 5 emptyField).neighbours :=
  ⟨(actions_preserve_neighbours (initAction 5 5 emptyField)).2 7 true _
      (Option.some_get _).symm,
   (actions_preserve_neighbours (initAction 5 5 emptyField)).1 _
      (Option.some_get _).symm⟩

/-- The offset arithmetic of getNeighbours, in row/column normal form: on
cell (r, c) the eight entries are exactly the toroidal row/column
combinations (up, same, down) by (left, same, right) minus (same, same), in
the component's order. -/
theorem getNeighbours_toroidal (height width r c : ℕ) (hr : r < height) (hc : c < width) :
    getNeighbours (r * width + c) height width =
      [rowUp r height * width + colLeft c width,
       rowUp r height * width + c,
       rowUp r height * width + colRight c width,
       (r : ℤ) * width + colLeft c width,
       (r : ℤ) * width + colRight c width,
       rowDown r height * width + colLeft c width,
       rowDown r height * width + c,
       rowDown r height * width + colRight c width] := by
  have hh1 : 1 ≤ height := by omega
  have hw1 : 1 ≤ width := by omega
  have hmod : (r * width + c) % width = c := by
    rw [Nat.mul_comm r width, Nat.mul_add_mod, Nat.mod_eq_of_lt hc]
  have e1 : (r * width + c < width) ↔ ((r : ℤ) = 0) := by
    constructor
    · intro hlt
      by_contra hne
      have h1 : 0 < r := by omega
      have h2 : width ≤ r * width := Nat.le_mul_of_pos_left width h1
      linarith
    · intro h0
      have hr0 : r = 0 := by omega
      subst hr0
      simpa using hc
  have e2 : (((height : ℤ) - 1) * width ≤ ((r * width + c : ℕ) : ℤ)) ↔
      ((r : ℤ) = (height : ℤ) - 1) := by
    have hcast : ((r * width + c : ℕ) : ℤ) = (r : ℤ) * width + c := by push_cast; ring
    rw [hcast]
    have hcw : (c : ℤ) < (width : ℤ) := by exact_mod_cast hc
    have hrh : (r : ℤ) < (height : ℤ) := by exact_mod_cast hr
    constructor
    · intro hle
      by_contra hne
      have h1 : (r : ℤ) + 1 ≤ (height : ℤ) - 1 := by omega
      have h2 : ((r : ℤ) + 1) * width ≤ ((height : ℤ) - 1) * width :=
        mul_le_mul_of_nonneg_right h1 (by omega)
      have h3 : ((r : ℤ) + 1) * width = (r : ℤ) * width + width := by ring
      linarith
    · intro he
      rw [← he]
      have h0 : (0 : ℤ) ≤ c := by positivity
      linarith
  have e3 : ((r * width + c) % width = 0) ↔ ((c : ℤ) = 0) := by
    rw [hmod]; omega
  have e4 : ((r * width + c) % width = width - 1) ↔ ((c : ℤ) = (width : ℤ) - 1) := by
    rw [hmod]; omega
  simp only [getNeighbours, e1, e2, e3, e4, rowUp, rowDown, colLeft, colRight]
  clear e1 e2 e3 e4 hmod
  split_ifs with p1 p2 p3 p4
  all_goals try (have hx : r = 0 := by omega
                 subst hx)
  all_goals try (have hx : r = height - 1 := by omega
                 subst hx)
  all_goals try (have hx : c = 0 := by omega
                 subst hx)
  all_goals try (have hx : c = width - 1 := by omega
                 subst hx)
  all_goals try (have hx : height = 1 := by omega
                 subst hx)
  all_goals try (have hx : width = 1 := by omega
                 subst hx)
  all_goals simp only [List.cons.injEq, and_true]
  all_goals repeat' apply And.intro
  all_goals push_cast
  all_goals try simp only [Nat.cast_sub hh1, Nat.cast_sub hw1, Nat.cast_one]
  all_goals ring

/-- Any flat index of the grid splits into a row below height and a column
below width. -/
theorem grid_decomp (height width index : ℕ) (hi : index < height * width) :
    ∃ r c, index = r * width + c ∧ r < height ∧ c < width := by
  have hw : 0 < width := by
    rcases Nat.eq_zero_or_pos width with h | h
    · subst h; simp at hi
    · exact h
  refine ⟨index / width, index % width, ?_, ?_, ?_⟩
  · rw [Nat.mul_comm (index / width) width]
    exact (Nat.div_add_mod index width).symm
  · exact Nat.div_lt_of_lt_mul (Nat.mul_comm height width ▸ hi)
  · exact Nat.mod_lt index hw

theorem rowUp_bounds (r h : ℤ) (h0 : 0 ≤ r) (h1 : r < h) :
    0 ≤ rowUp r h ∧ rowUp r h < h := by
  unfold rowUp; split_ifs <;> omega

theorem rowDown_bounds (r h : ℤ) (h0 : 0 ≤ r) (h1 : r < h) :
    0 ≤ rowDown r h ∧ rowDown r h < h := by
  unfold rowDown; split_ifs <;> omega

theorem colLeft_bounds (c w : ℤ) (h0 : 0 ≤ c) (h1 : c < w) :
    0 ≤ colLeft c w ∧ colLeft c w < w := by
  unfold colLeft; split_ifs <;> omega

theorem colRight_bounds (c w : ℤ) (h0 : 0 ≤ c) (h1 : c < w) :
    0 ≤ colRight c w ∧ colRight c w < w := by
  unfold colRight; split_ifs <;> omega

/-- A row and an in-range column make a flat index inside the grid. -/
theorem pair_in_range (a b h w : ℤ) (ha0 : 0 ≤ a) (hah : a < h)
    (hb0 : 0 ≤ b) (hbw : b < w) : 0 ≤ a * w + b ∧ a * w + b < h * w := by
  constructor
  · have hmul : 0 ≤ a * w := mul_nonneg ha0 (by omega)
    linarith
  · have h1 : a ≤ h - 1 := by omega
    have h2 : a * w ≤ (h - 1) * w := mul_le_mul_of_nonneg_right h1 (by omega)
    have h3 : (h - 1) * w = h * w - w := by ring
    linarith

/-- Flat encoding is injective on in-range columns. -/
theorem pair_inj (a b a' b' w : ℤ) (hb0 : 0 ≤ b) (hbw : b < w)
    (hb0' : 0 ≤ b') (hbw' : b' < w) (heq : a * w + b = a' * w + b') :
    a = a' ∧ b = b' := by
  have ha : a = a' := by
    by_contra hne
    rcases lt_or_gt_of_ne hne with hlt | hlt
    · have h1 : a + 1 ≤ a' := by omega
      have h2 : (a + 1) * w ≤ a' * w := mul_le_mul_of_nonneg_right h1 (by omega)
      have h3 : (a + 1) * w = a * w + w := by ring
      linarith
    · have h1 : a' + 1 ≤ a := by omega
      have h2 : (a' + 1) * w ≤ a * w := mul_le_mul_of_nonneg_right h1 (by omega)
      have h3 : (a' + 1) * w = a' * w + w := by ring
      linarith
  subst ha
  exact ⟨rfl, by linarith⟩

/-- Flat encodings of pairs that differ in row or in column differ. -/
theorem pair_ne (a b a' b' w : ℤ) (hb0 : 0 ≤ b) (hbw : b < w)
    (hb0' : 0 ≤ b') (hbw' : b' < w) (hne : a ≠ a' ∨ b ≠ b') :
    a * w + b ≠ a' * w + b' := by
  intro heq
  obtain ⟨ha, hb⟩ := pair_inj a b a' b' w hb0 hbw hb0' hbw' heq
  rcases hne with hne | hne
  · exact hne ha
  · exact hne hb

/-- Claim C7. Every one of the eight indices returned by getNeighbours lies
inside [0, height times width), for every height, width at least 1 and
every in-range flat index. -/
theorem getNeighbours_in_range (height width index : ℕ)
    (hh : 1 ≤ height) (hw : 1 ≤ width) (hi : index < height * width) :
    ∀ n ∈ getNeighbours index height width,
      0 ≤ n ∧ n < ((height * width : ℕ) : ℤ) := by
  obtain ⟨r, c, rfl, hr, hc⟩ := grid_decomp height width index hi
  rw [getNeighbours_toroidal height width r c hr hc]
  have hr0 : (0 : ℤ) ≤ r := by positivity
  have hrh : (r : ℤ) < height := by exact_mod_cast hr
  have hc0 : (0 : ℤ) ≤ c := by positivity
  have hcw : (c : ℤ) < width := by exact_mod_cast hc
  have hcast : ((height * width : ℕ) : ℤ) = (height : ℤ) * width := by push_cast; ring
  have hru := rowUp_bounds r height hr0 hrh
  have hrd := rowDown_bounds r height hr0 hrh
  have hcl := colLeft_bounds c width hc0 hcw
  have hcr := colRight_bounds c width hc0 hcw
  intro n hn
  rw [hcast]
  simp only [List.mem_cons, List.not_mem_nil, or_false] at hn
  rcases hn with rfl | rfl | rfl | rfl | rfl | rfl | rfl | rfl
  · exact pair_in_range _ _ _ _ hru.1 hru.2 hcl.1 hcl.2
  · exact pair_in_range _ _ _ _ hru.1 hru.2 hc0 hcw
  · exact pair_in_range _ _ _ _ hru.1 hru.2 hcr.1 hcr.2
  · exact pair_in_range _ _ _ _ hr0 hrh hcl.1 hcl.2
  · exact pair_in_range _ _ _ _ hr0 hrh hcr.1 hcr.2
  · exact pair_in_range _ _ _ _ hrd.1 hrd.2 hcl.1 hcl.2
  · exact pair_in_range _ _ _ _ hrd.1 hrd.2 hc0 hcw
  · exact pair_in_range _ _ _ _ hrd.1 hrd.2 hcr.1 hcr.2

/-- Claim C7, witness: the 5 by 5 grid at index 7; the instantiated
conclusion at the concrete neighbour 3. -/
theorem getNeighbours_in_range_witness :
    0 ≤ (3 : ℤ) ∧ (3 : ℤ) < ((5 * 5 : ℕ) : ℤ) :=
  getNeighbours_in_range 5 5 7 (by decide) (by decide) (by decide) 3 (by decide)

/-- Claim C6, counterexample: on a 2 by 3 grid (heights and widths of 2 are
inside the claim's domain) the neighbour list of cell 0 has duplicates: the
top and bottom wrap offsets coincide, giving [5, 3, 4, 2, 1, 5, 3, 4]. -/
theorem getNeighbours_dup_on_height_two :
    (2 : ℕ) ≥ 2 ∧ (3 : ℕ) ≥ 2 ∧ (0 : ℕ) < 2 * 3 ∧
    getNeighbours 0 2 3 = [5, 3, 4, 2, 1, 5, 3, 4] ∧
    ¬ (getNeighbours 0 2 3).Nodup := by decide

/-- Claim C6, amended: for height and width at least 3 (not 2) the eight
returned indices are pairwise distinct, and they cover the eight toroidal
directions: the list is exactly the row/column normal form (up, same, down)
by (left, same, right) minus (same, same) around the cell's row and
column. -/
theorem getNeighbours_distinct (height width index : ℕ)
    (hh : 3 ≤ height) (hw : 3 ≤ width) (hi : index < height * width) :
    (getNeighbours index height width).length = 8 ∧
    (getNeighbours index height width).Nodup ∧
    getNeighbours index height width =
      [rowUp ((index / width : ℕ) : ℤ) (height : ℤ) * width + colLeft ((index % width : ℕ) : ℤ) (width : ℤ),
       rowUp ((index / width : ℕ) : ℤ) (height : ℤ) * width + ((index % width : ℕ) : ℤ),
       rowUp ((index / width : ℕ) : ℤ) (height : ℤ) * width + colRight ((index % width : ℕ) : ℤ) (width : ℤ),
       ((index / width : ℕ) : ℤ) * width + colLeft ((index % width : ℕ) : ℤ) (width : ℤ),
       ((index / width : ℕ) : ℤ) * width + colRight ((index % width : ℕ) : ℤ) (width : ℤ),
       rowDown ((index / width : ℕ) : ℤ) (height : ℤ) * width + colLeft ((index % width : ℕ) : ℤ) (width : ℤ),
       rowDown ((index / width : ℕ) : ℤ) (height : ℤ) * width + ((index % width : ℕ) : ℤ),
       rowDown ((index / width : ℕ) : ℤ) (height : ℤ) * width + colRight ((index % width : ℕ) : ℤ) (width : ℤ)] := by
  obtain ⟨r, c, rfl, hr, hc⟩ := grid_decomp height width index hi
  have hdiv : (r * width + c) / width = r := by
    have h1 : r * width + c = width * r + c := by ring
    rw [h1, Nat.mul_add_div (by omega), Nat.div_eq_of_lt hc, Nat.add_zero]
  have hmod : (r * width + c) % width = c := by
    rw [Nat.mul_comm r width, Nat.mul_add_mod, Nat.mod_eq_of_lt hc]
  rw [hdiv, hmod, getNeighbours_toroidal height width r c hr hc]
  refine ⟨rfl, ?_, rfl⟩
  simp only [List.nodup_cons, List.mem_cons, List.not_mem_nil, or_false, not_or,
    List.nodup_nil, and_true, not_false_eq_true]
  repeat' apply And.intro
  all_goals apply pair_ne
  all_goals (first
    | omega
    | (simp only [rowUp, rowDown, colLeft, colRight]
       split_ifs <;> omega))

/-- Claim C6, witness for the amended statement: the 5 by 5 grid at
index 7. -/
theorem getNeighbours_distinct_witness :
    (getNeighbours 7 5 5).length = 8 ∧
    (getNeighbours 7 5 5).Nodup ∧
    getNeighbours 7 5 5 =
      [rowUp (((7 : ℕ) / 5 : ℕ) : ℤ) ((5 : ℕ) : ℤ) * 5 + colLeft (((7 : ℕ) % 5 : ℕ) : ℤ) ((5 : ℕ) : ℤ),
       rowUp (((7 : ℕ) / 5 : ℕ) : ℤ) ((5 : ℕ) : ℤ) * 5 + (((7 : ℕ) % 5 : ℕ) : ℤ),
       rowUp (((7 : ℕ) / 5 : ℕ) : ℤ) ((5 : ℕ) : ℤ) * 5 + colRight (((7 : ℕ) % 5 : ℕ) : ℤ) ((5 : ℕ) : ℤ),
       (((7 : ℕ) / 5 : ℕ) : ℤ) * 5 + colLeft (((7 : ℕ) % 5 : ℕ) : ℤ) ((5 : ℕ) : ℤ),
       (((7 : ℕ) / 5 : ℕ) : ℤ) * 5 + colRight (((7 : ℕ) % 5 : ℕ) : ℤ) ((5 : ℕ) : ℤ),
       rowDown (((7 : ℕ) / 5 : ℕ) : ℤ) ((5 : ℕ) : ℤ) * 5 + colLeft (((7 : ℕ) % 5 : ℕ) : ℤ) ((5 : ℕ) : ℤ),
       rowDown (((7 : ℕ) / 5 : ℕ) : ℤ) ((5 : ℕ) : ℤ) * 5 + (((7 : ℕ) % 5 : ℕ) : ℤ),
       rowDown (((7 : ℕ) / 5 : ℕ) : ℤ) ((5 : ℕ) : ℤ) * 5 + colRight (((7 : ℕ) % 5 : ℕ) : ℤ) ((5 : ℕ) : ℤ)] :=
  getNeighbours_distinct 5 5 7 (by decide) (by decide) (by decide)

/-- Writing back the value already stored at an in-range position leaves a
list unchanged. -/
theorem list_set_getD_self : ∀ (s : List Bool) (n : ℕ), n < s.length →
    s.set n (s.getD n false) = s := by
  intro s
  induction s with
  | nil => intro n hn; simp at hn
  | cons b t ih =>
    intro n hn
    cases n with
    | zero => rfl
    | succ m =>
      simp only [List.getD_cons_succ, List.set_cons_succ, List.cons.injEq, true_and]
      exact ih m (by simpa using hn)

/-- jsSet of the value jsGet reads back is the identity on in-range cells. -/
theorem jsSet_jsGet_self (s : List Bool) (i : ℤ) (h0 : 0 ≤ i)
    (hi : i < (s.length : ℤ)) : jsSet s i (jsGet s i) = s := by
  have htn : i.toNat < s.length := by omega
  unfold jsSet jsGet
  rw [if_pos h0, if_pos h0, if_pos htn]
  exact list_set_getD_self s i.toNat htn

/-- The frontier repair loop of the dead-cell branch never removes anything
when every cell it would remove is already absent. -/
theorem foldl_erase_eq_self (p : ℤ → Bool) :
    ∀ (l : List ℤ) (s : Finset ℤ), (∀ n ∈ l, ¬ p n = true → n ∉ s) →
      l.foldl (fun acc n => if p n = true then acc else acc.erase n) s = s := by
  intro l
  induction l with
  | nil => intro s _; rfl
  | cons a t ih =>
    intro s h
    rw [List.foldl_cons]
    by_cases hp : p a = true
    · rw [if_pos hp]
      exact ih s (fun n hn => h n (List.mem_cons_of_mem a hn))
    · rw [if_neg hp, Finset.erase_eq_of_not_mem (h a (List.mem_cons_self a t) hp)]
      exact ih s (fun n hn => h n (List.mem_cons_of_mem a hn))

/-- Claim C8. On a valid field, re-setting an in-range cell to its current
status is the identity: setStatusAction returns the very same field, with
the same status array, aliveCells, frontier and neighbour map. -/
theorem setStatus_idempotent (f : Field) (i : ℤ) (hv : ValidField f)
    (h0 : 0 ≤ i) (hi : i < (f.status.length : ℤ)) :
    setStatusAction i (jsGet f.status i) f = some f := by
  obtain ⟨nbs, hnbs⟩ : ∃ nbs, f.neighbours i = some nbs := by
    have hs := (hv.dom i).mpr ⟨h0, hi⟩
    cases hx : f.neighbours i
    · rw [hx] at hs; simp at hs
    · exact ⟨_, rfl⟩
  have hnl : nbrsList f i = nbs := by rw [nbrsList, hnbs]; rfl
  have hset := jsSet_jsGet_self f.status i h0 hi
  cases hcur : jsGet f.status i with
  | true =>
    rw [hcur] at hset
    have hmem : i ∈ f.aliveCells := (hv.alive i).mpr hcur
    have hins : insert i f.aliveCells = f.aliveCells := Finset.insert_eq_self.mpr hmem
    have hnotfr : i ∉ f.deadCellsWithAliveNeighbours := by
      intro hm
      have := ((hv.frontier i).mp hm).1
      rw [hcur] at this
      exact absurd this (by simp)
    have hera : f.deadCellsWithAliveNeighbours.erase i = f.deadCellsWithAliveNeighbours :=
      Finset.erase_eq_of_not_mem hnotfr
    have hsub : ((nbs.filter (fun n => decide (n ∉ f.aliveCells))).toFinset) ⊆
        f.deadCellsWithAliveNeighbours := by
      intro n hn
      rw [List.mem_toFinset, List.mem_filter] at hn
      obtain ⟨hn1, hn2⟩ := hn
      rw [decide_eq_true_eq] at hn2
      apply (hv.frontier n).mpr
      constructor
      · have hnal : ¬ jsGet f.status n = true := by
          intro ht
          exact hn2 ((hv.alive n).mpr ht)
        simpa using hnal
      · exact ⟨i, hv.nbrSymm i n (hnl ▸ hn1), hcur⟩
    have huni : f.deadCellsWithAliveNeighbours ∪
        ((nbs.filter (fun n => decide (n ∉ f.aliveCells))).toFinset) =
        f.deadCellsWithAliveNeighbours := Finset.union_eq_left.mpr hsub
    simp only [setStatusAction, hnbs, eq_self_iff_true, if_true]
    rw [hset, hins, hera, huni]
  | false =>
    rw [hcur] at hset
    have hnotal : i ∉ f.aliveCells := by
      intro hm
      have := (hv.alive i).mp hm
      rw [hcur] at this
      exact absurd this (by simp)
    have hera : f.aliveCells.erase i = f.aliveCells := Finset.erase_eq_of_not_mem hnotal
    have hguard : ∀ n ∈ nbs, (f.neighbours n).isSome = true := by
      intro n hn
      exact (hv.dom n).mpr (hv.closed i n (hnl ▸ hn))
    have hins : (if nbs.any (fun n => decide (n ∈ f.aliveCells)) = true then
        insert i f.deadCellsWithAliveNeighbours else f.deadCellsWithAliveNeighbours) =
        f.deadCellsWithAliveNeighbours := by
      by_cases hany : nbs.any (fun n => decide (n ∈ f.aliveCells)) = true
      · rw [if_pos hany]
        obtain ⟨n, hn, hdec⟩ := List.any_eq_true.mp hany
        rw [decide_eq_true_eq] at hdec
        have hifr : i ∈ f.deadCellsWithAliveNeighbours :=
          (hv.frontier i).mpr ⟨hcur, ⟨n, hnl ▸ hn, (hv.alive n).mp hdec⟩⟩
        exact Finset.insert_eq_self.mpr hifr
      · rw [if_neg hany]
    have hfold : nbs.foldl
        (fun acc n =>
          if ((f.neighbours n).getD []).any (fun m => decide (m ∈ f.aliveCells)) = true
          then acc else acc.erase n)
        f.deadCellsWithAliveNeighbours = f.deadCellsWithAliveNeighbours := by
      apply foldl_erase_eq_self
      intro n _ hno hmem
      apply hno
      obtain ⟨hd, m, hm, hmt⟩ := (hv.frontier n).mp hmem
      exact List.any_eq_true.mpr ⟨m, hm, decide_eq_true ((hv.alive m).mpr hmt)⟩
    simp only [setStatusAction, hnbs, Bool.false_eq_true, if_false]
    rw [hset, hera, if_pos hguard, hins, hfold]

/-- jsGet over an all-false array is false everywhere. -/
theorem jsGet_replicate_false (n : ℕ) (i : ℤ) :
    jsGet (List.replicate n false) i = false := by
  unfold jsGet
  split_ifs with h
  · induction n generalizing i with
    | zero => rfl
    | succ m ih =>
      cases ht : i.toNat with
      | zero => rfl
      | succ k =>
        show (false :: List.replicate m false).getD (Nat.succ k) false = false
        rw [List.getD_cons_succ]
        have := ih (k : ℤ) (by positivity)
        simp only [Int.toNat_natCast] at this
        exact this
  · rfl

/-- The freshly initialized 1 by 1 field satisfies all the Field
invariants. -/
theorem valid_init_one_one : ValidField (initAction 1 1 emptyField) := by
  have hnbr : ∀ i : ℤ, (initAction 1 1 emptyField).neighbours i =
      if 0 ≤ i ∧ i < 1 then some [0, 0, 0, 0, 0, 0, 0, 0] else none := by
    intro i
    show mkNeighbours 1 1 i = _
    unfold mkNeighbours
    have he : ((1 * 1 : ℕ) : ℤ) = 1 := by norm_num
    rw [he]
    split_ifs with h
    · have : i = 0 := by omega
      subst this
      rfl
    · rfl
  have hlen : ((initAction 1 1 emptyField).status.length : ℤ) = 1 := by
    show ((List.replicate (1 * 1) false).length : ℤ) = 1
    simp
  have hjs : ∀ i : ℤ, jsGet (initAction 1 1 emptyField).status i = false := by
    intro i
    exact jsGet_replicate_false (1 * 1) i
  constructor
  · intro i
    rw [hnbr i, hlen]
    split_ifs with h
    · simpa using h
    · simpa using h
  · intro i n hn
    rw [nbrsList, hnbr i] at hn
    rw [hlen]
    split_ifs at hn with h
    · simp only [Option.getD_some] at hn
      have : n = 0 := by
        simp only [List.mem_cons, List.not_mem_nil, or_false] at hn
        rcases hn with rfl | rfl | rfl | rfl | rfl | rfl | rfl | rfl <;> rfl
      subst this
      omega
    · simp at hn
  · intro i n hn
    rw [nbrsList, hnbr i] at hn
    split_ifs at hn with h
    · simp only [Option.getD_some] at hn
      have hn0 : n = 0 := by
        simp only [List.mem_cons, List.not_mem_nil, or_false] at hn
        rcases hn with rfl | rfl | rfl | rfl | rfl | rfl | rfl | rfl <;> rfl
      have hi0 : i = 0 := by omega
      subst hn0; subst hi0
      rw [nbrsList, hnbr 0]
      simp
    · simp at hn
  · intro i
    rw [hjs i]
    show i ∈ (∅ : Finset ℤ) ↔ false = true
    simp
  · intro i
    rw [hjs i]
    constructor
    · intro hm
      exact absurd hm (by show i ∉ (∅ : Finset ℤ); simp)
    · rintro ⟨-, n, -, hnt⟩
      rw [hjs n] at hnt
      exact absurd hnt (by simp)

/-- Claim C8, witness: on the valid freshly initialized 1 by 1 field,
re-setting cell 0 to its current status returns the field unchanged. -/
theorem setStatus_idempotent_witness :
    setStatusAction 0 (jsGet (initAction 1 1 emptyField).status 0)
      (initAction 1 1 emptyField) = some (initAction 1 1 emptyField) :=
  setStatus_idempotent (initAction 1 1 emptyField) 0 valid_init_one_one
    (by decide) (by decide)

end GameOfLife
